import Mathlib

/-!
Shallow embedding of the work-hours interval accounting engine of
`calendar_report.py` (repository `outlook-calendar-report`).

Modelling conventions:
* A Python `datetime` (already normalized to the single reference timezone)
  is a count of seconds, as an `ℤ`, from an epoch placed at
  2024-01-01 00:00 local time.  2024-01-01 is a Monday, so `weekday`
  agrees with Python's `date.weekday()` (Monday = 0 … Sunday = 6).
  Days are uniform 86400-second spans.
* A Python `date` is a day index (`dayOf`); hour quantities (Python
  floats that here only ever hold sums, differences and quotients of
  small integers by 3600) are `ℚ`.
* Python strings are `List Char`; a Python set of dates is a list used
  only through membership; the per-category `defaultdict(float)` is the
  function `durationsFor`.
* Python's stable `list.sort(key=lambda iv: iv[0])` is
  `List.insertionSort` on the same key order; for the interval lists the
  program builds, stability is unobservable (intervals sharing a start
  merge to the same result either way), so any stable-equivalent sort
  models it.
-/

/-- Day index of a timestamp: the Python `datetime.date()` of a second
count (Euclidean division floors, as the calendar does). -/
def dayOf (t : ℤ) : ℤ := t / 86400

/-- `date.weekday()` relative to the Monday epoch. -/
def weekday (d : ℤ) : ℤ := d % 7

/-- The `DAILY_WORK_HOURS` table (with the `.get(weekday, 0)` default). -/
def DAILY_WORK_HOURS (w : ℤ) : ℤ :=
  if w = 0 then 8 else if w = 1 then 8 else if w = 2 then 8
  else if w = 3 then 9 else if w = 4 then 9 else 0

/-- The `DAILY_START_TIMES` table (with the `.get(weekday, 9)` default). -/
def DAILY_START_TIMES (w : ℤ) : ℤ :=
  if w = 3 then 8 else if w = 4 then 8 else 9

/-- `TOTAL_WORK_HOURS = sum(hours for day, hours in DAILY_WORK_HOURS.items() if day < 5)`. -/
def TOTAL_WORK_HOURS : ℤ :=
  ((((List.range 7).map (fun n => (n : ℤ))).filter (fun d => d < 5)).map
    DAILY_WORK_HOURS).sum

/-- Python `str.strip()` on a character list. -/
def pyStrip (s : List Char) : List Char :=
  ((s.dropWhile Char.isWhitespace).reverse.dropWhile Char.isWhitespace).reverse

/-- Python `s.split(",")[0]`: the characters before the first comma. -/
def firstField (s : List Char) : List Char := s.takeWhile (fun c => c ≠ ',')

/-- The `KNOWN_CATEGORIES` set (a list used through membership). -/
def KNOWN_CATEGORIES : List (List Char) :=
  ["Focus Time".toList, "Communication".toList, "Unavailable".toList,
   "Collaboration".toList, "Holiday/Vacation".toList]

/-- `categorize_event`: first comma-separated token, stripped; unknown or
effectively empty labels fall back to `"Work Meeting"`. -/
def categorize_event (categories_str : List Char) : List Char :=
  if pyStrip categories_str = [] then "Work Meeting".toList
  else if pyStrip (firstField categories_str) ∈ KNOWN_CATEGORIES then
    pyStrip (firstField categories_str)
  else "Work Meeting".toList

/-- The event dict assembled by `_fetch_events_for_range`:
`{subject, start, end, duration_hours, categories}` (`end` is `stop`
here because `end` is a Lean keyword). -/
structure Event where
  subject : List Char
  start : ℤ
  stop : ℤ
  duration_hours : ℚ
  categories : List Char
deriving DecidableEq

/-- `OutlookCalendarReporter.is_all_day_holiday`: primary category is
`Holiday/Vacation`, both endpoints at midnight, and span at least 24 h. -/
def is_all_day_holiday (event : Event) : Bool :=
  if event.categories = [] then false
  else if pyStrip (firstField event.categories) ≠ "Holiday/Vacation".toList then false
  else
    decide (event.start % 86400 = 0) && decide (event.stop % 86400 = 0) &&
      decide (86400 ≤ event.stop - event.start)

/-- Start of day `d`'s work window: `date @ startHour:00`. -/
def work_start (d : ℤ) : ℤ := 86400 * d + 3600 * DAILY_START_TIMES (weekday d)

/-- End of day `d`'s work window: `workStart + durationHours`. -/
def work_end (d : ℤ) : ℤ :=
  86400 * d + 3600 * (DAILY_START_TIMES (weekday d) + DAILY_WORK_HOURS (weekday d))

/-- One day's clipped interval, as computed in the busy-time loop of
`build_report` (guard `daily_hours > 0`, then the positive overlap of
`[s, e)` with the work window). -/
def clipDay (d s e : ℤ) : Option (ℤ × ℤ) :=
  if 0 < DAILY_WORK_HOURS (weekday d) then
    if max s (work_start d) < min e (work_end d) then
      some (max s (work_start d), min e (work_end d))
    else none
  else none

/-- Duration of an interval in hours (`total_seconds() / 3600.0`). -/
def hoursOf (iv : ℤ × ℤ) : ℚ := ((iv.2 - iv.1 : ℤ) : ℚ) / 3600

/-- Hours of an optional interval; `none` contributes nothing. -/
def optHours : Option (ℤ × ℤ) → ℚ
  | none => 0
  | some iv => hoursOf iv

/-- The days `a, a+1, …, b-1` (`while current_date < b`). -/
def rangeDays (a b : ℤ) : List ℤ :=
  (List.range (b - a).toNat).map (fun (i : ℕ) => a + (i : ℤ))

/-- The days an event's span touches, start date through end date
inclusive (`while current_date <= end_date`). -/
def eventDays (s e : ℤ) : List ℤ := rangeDays (dayOf s) (dayOf e + 1)

/-- The per-day contribution inside `calculate_work_hours_overlap`:
days with `daily_hours == 0` are skipped, otherwise the positive overlap
with that day's work window is added. -/
def overlapTerm (s e d : ℤ) : ℚ :=
  if DAILY_WORK_HOURS (weekday d) = 0 then 0
  else if max s (work_start d) < min e (work_end d) then
    hoursOf (max s (work_start d), min e (work_end d))
  else 0

/-- `OutlookCalendarReporter.calculate_work_hours_overlap`. -/
def calculate_work_hours_overlap (s e : ℤ) : ℚ :=
  max 0 ((eventDays s e).foldl (fun acc d => acc + overlapTerm s e d) 0)

/-- The dates a full-day holiday event covers: `[start.date, end.date)`,
end date exclusive. -/
def holidayDayRange (ev : Event) : List ℤ := rangeDays (dayOf ev.start) (dayOf ev.stop)

/-- One iteration of the holiday loop in `build_report`: add the date to
the set (membership-deduplicated) and unconditionally add that weekday's
configured hours to the reduction total. -/
def holidayVisit (st : List ℤ × ℤ) (d : ℤ) : List ℤ × ℤ :=
  ((if d ∈ st.1 then st.1 else st.1 ++ [d]), st.2 + DAILY_WORK_HOURS (weekday d))

/-- The holiday scan of `build_report` (lines 415–431): all dates of all
full-day holiday events, visited in order. -/
def holidayScan (events : List Event) : List ℤ × ℤ :=
  ((events.filter is_all_day_holiday).flatMap holidayDayRange).foldl holidayVisit ([], 0)

/-- The `holiday_dates` set. -/
def holiday_dates (events : List Event) : List ℤ := (holidayScan events).1

/-- The `holiday_hours_reduction` accumulator. -/
def holiday_hours_reduction (events : List Event) : ℤ := (holidayScan events).2

/-- Events kept for accounting: start date not in the holiday date set. -/
def non_holiday_events (events : List Event) : List Event :=
  events.filter (fun ev => decide (dayOf ev.start ∉ holiday_dates events))

/-- Raw per-category hours: the `durations` defaultdict at key `cat`. -/
def durationsFor (events : List Event) (cat : List Char) : ℚ :=
  (((non_holiday_events events).filter
      (fun ev => decide (categorize_event ev.categories = cat))).map
    (fun ev => ev.duration_hours)).sum

/-- Every category label `categorize_event` can produce (the fallback
first, then the known set); `durations` only ever holds these keys. -/
def REPORT_CATEGORIES : List (List Char) := "Work Meeting".toList :: KNOWN_CATEGORIES

/-- `total_meeting_time_raw = sum(durations.values())`. -/
def total_meeting_time_raw (events : List Event) : ℚ :=
  (REPORT_CATEGORIES.map (durationsFor events)).sum

/-- The interval list `intervals_by_day[d]`: clipped sub-intervals of the
non-holiday events on date `d`, holiday dates skipped, in event order. -/
def intervals_for_day (events : List Event) (d : ℤ) : List (ℤ × ℤ) :=
  (non_holiday_events events).filterMap (fun ev =>
    if d ∈ eventDays ev.start ev.stop ∧ d ∉ holiday_dates events then
      clipDay d ev.start ev.stop
    else none)

/-- One step of the per-day merge loop: start a fresh merged interval when
the next start lies strictly past the current merged end, else extend the
current merged end to the max of the two ends.  The accumulator keeps the
merged list in reverse (`merged[-1]` is the head). -/
def mergeStep (merged : List (ℤ × ℤ)) (iv : ℤ × ℤ) : List (ℤ × ℤ) :=
  match merged with
  | [] => [iv]
  | last :: rest =>
      if last.2 < iv.1 then iv :: last :: rest
      else (last.1, max last.2 iv.2) :: rest

/-- `day_intervals.sort(key=lambda iv: iv[0])`, a stable sort by start. -/
def sortIntervals (ivs : List (ℤ × ℤ)) : List (ℤ × ℤ) :=
  ivs.insertionSort (fun a b => a.1 ≤ b.1)

/-- The merged (disjoint) interval list for one day. -/
def mergeIntervals (ivs : List (ℤ × ℤ)) : List (ℤ × ℤ) :=
  ((sortIntervals ivs).foldl mergeStep []).reverse

/-- Total merged hours for one day's interval list. -/
def mergeTotal (ivs : List (ℤ × ℤ)) : ℚ := ((mergeIntervals ivs).map hoursOf).sum

/-- The days that appear as keys of `intervals_by_day`, up to days whose
interval list is empty (those contribute `0` to every sum below). -/
def visited_days (events : List Event) : List ℤ :=
  ((non_holiday_events events).flatMap (fun ev => eventDays ev.start ev.stop)).dedup

/-- `busy_hours_total`: merged hours summed over all days. -/
def busy_hours_total (events : List Event) : ℚ :=
  ((visited_days events).map (fun d => mergeTotal (intervals_for_day events d))).sum

/-- `adjusted_total_work_hours = TOTAL_WORK_HOURS - holiday_hours_reduction`
(no clamping in the source). -/
def adjusted_total_work_hours (events : List Event) : ℚ :=
  (TOTAL_WORK_HOURS : ℚ) - (holiday_hours_reduction events : ℚ)

/-- `free_time = max(0.0, adjusted_total_work_hours - busy_hours_total)`. -/
def free_time (events : List Event) : ℚ :=
  max 0 (adjusted_total_work_hours events - busy_hours_total events)

/-- A per-category budget row of `BUDGETS` (fields in source key order). -/
structure Budget where
  min : ℚ
  max : ℚ
  warn : ℚ
deriving DecidableEq

/-- The `BUDGETS` table. -/
def BUDGETS (cat : List Char) : Option Budget :=
  if cat = "Focus Time".toList then some ⟨12, 15, 14⟩
  else if cat = "Collaboration".toList then some ⟨4, 8, 6⟩
  else if cat = "Communication".toList then some ⟨0, 8, 6⟩
  else if cat = "Work Meeting".toList then some ⟨0, 12, 10⟩
  else if cat = "Unavailable".toList then some ⟨0, 6, 5⟩
  else none

/-- The status chain printed in the `Warning` column of `build_report`
(the OK case is rendered as the empty string). -/
def warn_msg (b : Budget) (hrs : ℚ) : String :=
  if hrs > b.max then "Exceeded"
  else if hrs > b.warn then "Warning"
  else if hrs < b.min then "Below min"
  else ""

/-- The verbose diagnostic listing of `build_report`: all events sorted by
start, each with its all-day-holiday marker and its filtered-by-holiday
marker. -/
def debugListing (events : List Event) : List (Event × Bool × Bool) :=
  (events.insertionSort (fun a b => a.start ≤ b.start)).map (fun ev =>
    (ev, is_all_day_holiday ev,
      decide (dayOf ev.start ∈ holiday_dates events) && ! is_all_day_holiday ev))

/-- The quantities `build_report` computes and prints for a non-empty
event list. -/
structure ReportResult where
  perCategoryHours : List (List Char × ℚ)
  totalMeetingTimeRaw : ℚ
  busyHoursTotal : ℚ
  holidayReductionHours : ℚ
  adjustedWorkHoursTotal : ℚ
  freeHours : ℚ
  perCategoryWarn : List (List Char × String)
deriving DecidableEq

/-- The report assembled from a (non-empty) event list. -/
def mkReport (events : List Event) : ReportResult where
  perCategoryHours := REPORT_CATEGORIES.map (fun c => (c, durationsFor events c))
  totalMeetingTimeRaw := total_meeting_time_raw events
  busyHoursTotal := busy_hours_total events
  holidayReductionHours := (holiday_hours_reduction events : ℚ)
  adjustedWorkHoursTotal := adjusted_total_work_hours events
  freeHours := free_time events
  perCategoryWarn := REPORT_CATEGORIES.map (fun c =>
    (c, match BUDGETS c with
        | some b => warn_msg b (durationsFor events c)
        | none => ""))

/-- `build_report`: on an empty event list the source prints
`"No calendar events found…"` and returns before computing anything;
that early return is `none`. -/
def build_report (events : List Event) : Option ReportResult :=
  if events = [] then none else some (mkReport events)

/-! Concrete fixtures for the scenarios named by the specification.
Day 14 is 2024-01-15 (a Monday), day 15 is 2024-01-16 (a Tuesday). -/

/-- All-day holiday 2024-01-15 00:00 → 2024-01-16 00:00. -/
def holidayEvent0115 : Event :=
  ⟨"Holiday".toList, 14 * 86400, 15 * 86400, 0, "Holiday/Vacation".toList⟩

/-- A second all-day holiday covering the same date. -/
def holidayDup0115 : Event :=
  ⟨"Vacation".toList, 14 * 86400, 15 * 86400, 0, "Holiday/Vacation".toList⟩

/-- A two-week all-day holiday 2024-01-01 00:00 → 2024-01-15 00:00,
covering ten configured workdays (2 × 42 = 84 reduced hours). -/
def holidayTwoWeeks : Event :=
  ⟨"Long leave".toList, 0, 14 * 86400, 0, "Holiday/Vacation".toList⟩

/-- Tuesday 2024-01-16 09:00–10:00, inside the 9:00–17:00 work window. -/
def tueMeetingA : Event :=
  ⟨"Sync".toList, 15 * 86400 + 9 * 3600, 15 * 86400 + 10 * 3600, 1,
   "Focus Time".toList⟩

/-- Tuesday 2024-01-16 09:30–10:30, overlapping `tueMeetingA` by 30 min. -/
def tueMeetingB : Event :=
  ⟨"Standup".toList, 15 * 86400 + 9 * 3600 + 1800, 15 * 86400 + 10 * 3600 + 1800, 1,
   "Work Meeting".toList⟩

/-- An ordinary meeting Monday 2024-01-15 10:00–11:00 (a holiday date). -/
def monMeeting0115 : Event :=
  ⟨"Planning".toList, 14 * 86400 + 10 * 3600, 14 * 86400 + 11 * 3600, 1,
   "Focus Time".toList⟩

/-! Configuration facts. -/

theorem dwh_nonneg (w : ℤ) : 0 ≤ DAILY_WORK_HOURS w := by
  unfold DAILY_WORK_HOURS; split_ifs <;> norm_num

theorem dst_bounds (w : ℤ) :
    0 ≤ DAILY_START_TIMES w ∧ DAILY_START_TIMES w + DAILY_WORK_HOURS w ≤ 18 := by
  unfold DAILY_START_TIMES DAILY_WORK_HOURS; split_ifs <;> norm_num

theorem total_work_hours_eq : TOTAL_WORK_HOURS = 42 := by decide

/-! Clipping facts. -/

theorem clipDay_eq_none_of_day_lt {d s : ℤ} (e : ℤ) (h : d < dayOf s) :
    clipDay d s e = none := by
  unfold clipDay
  split_ifs with h1 h2
  · exfalso
    obtain ⟨hst, hsum⟩ := dst_bounds (weekday d)
    unfold work_start work_end at h2
    unfold dayOf at h
    omega
  · rfl
  · rfl

theorem clipDay_eq_none_of_day_gt {d e : ℤ} (s : ℤ) (h : dayOf e < d) :
    clipDay d s e = none := by
  unfold clipDay
  split_ifs with h1 h2
  · exfalso
    obtain ⟨hst, hsum⟩ := dst_bounds (weekday d)
    unfold work_start work_end at h2
    unfold dayOf at h
    omega
  · rfl
  · rfl

theorem clipDay_some_wf {d s e : ℤ} {iv : ℤ × ℤ} (h : clipDay d s e = some iv) :
    iv.1 < iv.2 := by
  unfold clipDay at h
  split_ifs at h with h1 h2
  · cases h; exact h2

theorem optHours_nonneg {o : Option (ℤ × ℤ)} (h : ∀ iv, o = some iv → iv.1 ≤ iv.2) :
    0 ≤ optHours o := by
  cases o with
  | none => exact le_refl 0
  | some iv =>
      have := h iv rfl
      unfold optHours hoursOf
      apply div_nonneg _ (by norm_num)
      exact_mod_cast sub_nonneg.mpr this

theorem optHours_clipDay_nonneg (d s e : ℤ) : 0 ≤ optHours (clipDay d s e) := by
  apply optHours_nonneg
  intro iv h
  exact le_of_lt (clipDay_some_wf h)

theorem overlapTerm_eq_optHours (s e d : ℤ) :
    overlapTerm s e d = optHours (clipDay d s e) := by
  have h0 := dwh_nonneg (weekday d)
  unfold overlapTerm clipDay
  by_cases hz : DAILY_WORK_HOURS (weekday d) = 0
  · have hnp : ¬ 0 < DAILY_WORK_HOURS (weekday d) := by omega
    rw [if_pos hz, if_neg hnp]
    rfl
  · have hp : 0 < DAILY_WORK_HOURS (weekday d) := by omega
    rw [if_neg hz, if_pos hp]
    split_ifs <;> rfl

theorem foldl_add_eq_sum {α : Type} (f : α → ℚ) :
    ∀ (l : List α) (c : ℚ), l.foldl (fun acc x => acc + f x) c = c + (l.map f).sum
  | [], c => by simp
  | x :: l, c => by
    simp only [List.foldl_cons, List.map_cons, List.sum_cons]
    rw [foldl_add_eq_sum f l (c + f x)]
    ring

theorem overlap_eq_sum_clipDay (s e : ℤ) :
    calculate_work_hours_overlap s e =
      ((eventDays s e).map (fun d => optHours (clipDay d s e))).sum := by
  unfold calculate_work_hours_overlap
  rw [foldl_add_eq_sum (overlapTerm s e), zero_add]
  rw [show overlapTerm s e = (fun d => optHours (clipDay d s e)) from
    funext (fun d => overlapTerm_eq_optHours s e d)]
  exact max_eq_right (List.sum_nonneg (by
    intro x hx
    obtain ⟨d, _, rfl⟩ := List.mem_map.mp hx
    exact optHours_clipDay_nonneg d s e))

theorem overlap_nonneg (s e : ℤ) : 0 ≤ calculate_work_hours_overlap s e :=
  le_max_left 0 _

theorem mem_rangeDays {a b d : ℤ} : d ∈ rangeDays a b ↔ a ≤ d ∧ d < b := by
  unfold rangeDays
  rw [List.mem_map]
  constructor
  · rintro ⟨i, hi, rfl⟩
    rw [List.mem_range] at hi
    omega
  · rintro ⟨h1, h2⟩
    refine ⟨(d - a).toNat, ?_, ?_⟩
    · rw [List.mem_range]
      omega
    · omega

theorem rangeDays_nodup (a b : ℤ) : (rangeDays a b).Nodup := by
  unfold rangeDays
  refine (List.nodup_range _).map ?_
  intro i j hij
  have h : a + (i : ℤ) = a + (j : ℤ) := hij
  omega

/-! Holiday scan facts. -/

theorem holidayFold_snd :
    ∀ (days : List ℤ) (st : List ℤ × ℤ),
      (days.foldl holidayVisit st).2 =
        st.2 + (days.map (fun d => DAILY_WORK_HOURS (weekday d))).sum
  | [], st => by simp
  | d :: days, st => by
    simp only [List.foldl_cons, List.map_cons, List.sum_cons]
    rw [holidayFold_snd days (holidayVisit st d)]
    unfold holidayVisit
    ring

theorem holidayFold_fst_mem :
    ∀ (days : List ℤ) (st : List ℤ × ℤ) (d : ℤ),
      d ∈ (days.foldl holidayVisit st).1 ↔ d ∈ st.1 ∨ d ∈ days
  | [], st, d => by simp
  | d0 :: days, st, d => by
    simp only [List.foldl_cons]
    rw [holidayFold_fst_mem days (holidayVisit st d0) d]
    unfold holidayVisit
    by_cases h : d0 ∈ st.1
    · rw [if_pos h]
      constructor
      · rintro (h1 | h2)
        · exact Or.inl h1
        · exact Or.inr (List.mem_cons_of_mem _ h2)
      · rintro (h1 | h2)
        · exact Or.inl h1
        · rcases List.mem_cons.mp h2 with rfl | h3
          · exact Or.inl h
          · exact Or.inr h3
    · rw [if_neg h]
      constructor
      · rintro (h1 | h2)
        · rcases List.mem_append.mp h1 with h3 | h3
          · exact Or.inl h3
          · rcases List.mem_singleton.mp h3 with rfl
            exact Or.inr (List.mem_cons_self _ _)
        · exact Or.inr (List.mem_cons_of_mem _ h2)
      · rintro (h1 | h2)
        · exact Or.inl (List.mem_append.mpr (Or.inl h1))
        · rcases List.mem_cons.mp h2 with rfl | h3
          · exact Or.inl (List.mem_append.mpr (Or.inr (List.mem_singleton.mpr rfl)))
          · exact Or.inr h3

theorem holiday_hours_reduction_eq (events : List Event) :
    holiday_hours_reduction events =
      (((events.filter is_all_day_holiday).flatMap holidayDayRange).map
        (fun d => DAILY_WORK_HOURS (weekday d))).sum := by
  unfold holiday_hours_reduction holidayScan
  rw [holidayFold_snd]
  simp

theorem mem_holiday_dates {events : List Event} {d : ℤ} :
    d ∈ holiday_dates events ↔
      ∃ ev ∈ events.filter is_all_day_holiday, d ∈ holidayDayRange ev := by
  unfold holiday_dates holidayScan
  rw [holidayFold_fst_mem]
  simp [List.mem_flatMap]

/-! Merge facts. -/

theorem hoursOf_extend_le {a b s e : ℤ} (hse : s ≤ e) (hsb : s ≤ b) :
    hoursOf (a, max b e) ≤ hoursOf (a, b) + hoursOf (s, e) := by
  unfold hoursOf
  show ((max b e - a : ℤ) : ℚ) / 3600 ≤ ((b - a : ℤ) : ℚ) / 3600 + ((e - s : ℤ) : ℚ) / 3600
  rw [div_add_div_same]
  refine (div_le_div_iff_of_pos_right (by norm_num : (0:ℚ) < 3600)).mpr ?_
  rw [← Int.cast_add]
  exact_mod_cast (by omega : (max b e - a : ℤ) ≤ (b - a) + (e - s))

theorem mergeStep_cons (last : ℤ × ℤ) (rest : List (ℤ × ℤ)) (iv : ℤ × ℤ) :
    mergeStep (last :: rest) iv =
      if last.2 < iv.1 then iv :: last :: rest
      else (last.1, max last.2 iv.2) :: rest := rfl

theorem mergeStep_sum_le (acc : List (ℤ × ℤ)) (iv : ℤ × ℤ) (hiv : iv.1 ≤ iv.2) :
    ((mergeStep acc iv).map hoursOf).sum ≤ (acc.map hoursOf).sum + hoursOf iv := by
  cases acc with
  | nil => simp [mergeStep]
  | cons last rest =>
    rw [mergeStep_cons]
    by_cases h : last.2 < iv.1
    · rw [if_pos h]
      simp only [List.map_cons, List.sum_cons]
      ring_nf
      exact le_refl _
    · rw [if_neg h]
      simp only [List.map_cons, List.sum_cons]
      have hx : hoursOf (last.1, max last.2 iv.2) ≤
          hoursOf (last.1, last.2) + hoursOf (iv.1, iv.2) :=
        hoursOf_extend_le hiv (by omega)
      simp only [Prod.mk.eta] at hx
      linarith

theorem mergeFold_sum_le :
    ∀ (ivs : List (ℤ × ℤ)) (acc : List (ℤ × ℤ)),
      (∀ iv ∈ ivs, iv.1 ≤ iv.2) →
      ((ivs.foldl mergeStep acc).map hoursOf).sum ≤
        (acc.map hoursOf).sum + (ivs.map hoursOf).sum
  | [], acc, _ => by simp
  | iv :: ivs, acc, h => by
    simp only [List.foldl_cons, List.map_cons, List.sum_cons]
    calc ((ivs.foldl mergeStep (mergeStep acc iv)).map hoursOf).sum
        ≤ ((mergeStep acc iv).map hoursOf).sum + (ivs.map hoursOf).sum :=
          mergeFold_sum_le ivs _ (fun x hx => h x (List.mem_cons_of_mem _ hx))
      _ ≤ ((acc.map hoursOf).sum + hoursOf iv) + (ivs.map hoursOf).sum := by
          have := mergeStep_sum_le acc iv (h iv (List.mem_cons_self _ _))
          linarith
      _ = (acc.map hoursOf).sum + (hoursOf iv + (ivs.map hoursOf).sum) := by ring

theorem sortIntervals_perm (ivs : List (ℤ × ℤ)) : (sortIntervals ivs).Perm ivs :=
  List.perm_insertionSort _ _

theorem mergeTotal_le_sum {ivs : List (ℤ × ℤ)} (h : ∀ iv ∈ ivs, iv.1 ≤ iv.2) :
    mergeTotal ivs ≤ (ivs.map hoursOf).sum := by
  unfold mergeTotal mergeIntervals
  rw [List.map_reverse, List.sum_reverse]
  have h2 : ∀ iv ∈ sortIntervals ivs, iv.1 ≤ iv.2 := fun iv hiv =>
    h iv ((sortIntervals_perm ivs).mem_iff.mp hiv)
  calc (((sortIntervals ivs).foldl mergeStep []).map hoursOf).sum
      ≤ (([] : List (ℤ × ℤ)).map hoursOf).sum + ((sortIntervals ivs).map hoursOf).sum :=
        mergeFold_sum_le _ _ h2
    _ = ((sortIntervals ivs).map hoursOf).sum := by simp
    _ = (ivs.map hoursOf).sum := ((sortIntervals_perm ivs).map hoursOf).sum_eq

theorem mergeFold_separated :
    ∀ (l : List (ℤ × ℤ)) (prev : ℤ × ℤ) (rest : List (ℤ × ℤ)),
      List.Chain' (fun x y => x.2 < y.1) (prev :: l) →
      l.foldl mergeStep (prev :: rest) = l.reverse ++ prev :: rest
  | [], _, _, _ => rfl
  | iv :: l, prev, rest, h => by
    rw [List.chain'_cons] at h
    simp only [List.foldl_cons]
    have hstep : mergeStep (prev :: rest) iv = iv :: prev :: rest := by
      rw [mergeStep_cons, if_pos h.1]
    rw [hstep, mergeFold_separated l iv (prev :: rest) h.2]
    simp

theorem mergeIntervals_of_separated {l : List (ℤ × ℤ)}
    (hsep : List.Pairwise (fun x y => x.2 < y.1) l)
    (hwf : ∀ iv ∈ l, iv.1 < iv.2) :
    mergeIntervals l = l := by
  have hsorted : List.Sorted (fun a b : ℤ × ℤ => a.1 ≤ b.1) l :=
    hsep.imp_of_mem (fun ha _ hab => le_of_lt (lt_trans (hwf _ ha) hab))
  have hsort : sortIntervals l = l := hsorted.insertionSort_eq
  unfold mergeIntervals
  rw [hsort]
  cases l with
  | nil => rfl
  | cons iv l' =>
    simp only [List.foldl_cons]
    have h1 : mergeStep [] iv = [iv] := rfl
    rw [h1, mergeFold_separated l' iv [] hsep.chain']
    simp

/-! Summation helpers. -/

theorem sum_map_hours_filterMap (g : Event → Option (ℤ × ℤ)) :
    ∀ l : List Event,
      ((l.filterMap g).map hoursOf).sum = (l.map (fun ev => optHours (g ev))).sum
  | [] => rfl
  | ev :: l => by
    cases hg : g ev with
    | none =>
        simp only [List.filterMap_cons, hg, List.map_cons, List.sum_cons]
        rw [sum_map_hours_filterMap g l]
        simp [optHours]
    | some iv =>
        simp only [List.filterMap_cons, hg, List.map_cons, List.sum_cons]
        rw [sum_map_hours_filterMap g l]
        rfl

theorem sum_map_sum_comm {α β : Type} (D : List α) (E : List β) (f : α → β → ℚ) :
    (D.map (fun d => (E.map (f d)).sum)).sum =
      (E.map (fun e => (D.map (fun d => f d e)).sum)).sum := by
  induction D with
  | nil => simp
  | cons d D ih =>
      simp only [List.map_cons, List.sum_cons, ih]
      rw [List.sum_map_add]

theorem sum_map_le_of_nodup {D R : List ℤ} (g : ℤ → ℚ) (hD : D.Nodup) (hR : R.Nodup)
    (hg : ∀ d, 0 ≤ g d) (hz : ∀ d, d ∉ R → g d = 0) :
    (D.map g).sum ≤ (R.map g).sum := by
  rw [← List.sum_toFinset g hD, ← List.sum_toFinset g hR]
  calc D.toFinset.sum g ≤ (D.toFinset ∪ R.toFinset).sum g :=
        Finset.sum_le_sum_of_subset_of_nonneg Finset.subset_union_left
          (fun i _ _ => hg i)
    _ = R.toFinset.sum g := by
        symm
        apply Finset.sum_subset Finset.subset_union_right
        intro x _ hxR
        exact hz x (fun hmem => hxR (List.mem_toFinset.mpr hmem))

theorem sum_map_ite_zero {K : Type} [DecidableEq K] (x : ℚ) :
    ∀ (cats : List K) (k : K), k ∉ cats →
      (cats.map (fun c => if k = c then x else 0)).sum = 0
  | [], _, _ => rfl
  | c :: cats, k, h => by
    simp only [List.map_cons, List.sum_cons]
    rw [if_neg (fun hk => h (List.mem_cons.mpr (Or.inl hk))),
      sum_map_ite_zero x cats k (fun hk => h (List.mem_cons_of_mem _ hk)), add_zero]

theorem sum_map_ite_single {K : Type} [DecidableEq K] (x : ℚ) :
    ∀ (cats : List K) (k : K), cats.Nodup → k ∈ cats →
      (cats.map (fun c => if k = c then x else 0)).sum = x
  | [], k, _, hmem => absurd hmem (List.not_mem_nil k)
  | c :: cats, k, hnd, hmem => by
    simp only [List.map_cons, List.sum_cons]
    rcases List.mem_cons.mp hmem with rfl | hk
    · rw [if_pos rfl,
        sum_map_ite_zero x cats k (fun hk2 => (List.nodup_cons.mp hnd).1 hk2), add_zero]
    · rw [if_neg (fun hkc => (List.nodup_cons.mp hnd).1 (by rw [← hkc]; exact hk)),
        sum_map_ite_single x cats k (List.nodup_cons.mp hnd).2 hk, zero_add]

theorem sum_filter_partition (dur : Event → ℚ) (key : Event → List Char) :
    ∀ (l : List Event) (cats : List (List Char)), cats.Nodup →
      (∀ ev ∈ l, key ev ∈ cats) →
      (cats.map (fun c =>
        ((l.filter (fun ev => decide (key ev = c))).map dur).sum)).sum
        = (l.map dur).sum
  | [], cats, _, _ => by simp
  | ev :: l, cats, hnd, hmem => by
    have hstep : ∀ c ∈ cats,
        (((ev :: l).filter (fun x => decide (key x = c))).map dur).sum
          = (if key ev = c then dur ev else 0)
            + ((l.filter (fun x => decide (key x = c))).map dur).sum := by
      intro c _
      by_cases h : key ev = c
      · rw [List.filter_cons, if_pos (by simpa using h)]
        simp only [List.map_cons, List.sum_cons]
        rw [if_pos h]
      · rw [List.filter_cons, if_neg (by simpa using h)]
        rw [if_neg h, zero_add]
    rw [List.map_congr_left hstep, List.sum_map_add,
      sum_map_ite_single (dur ev) cats (key ev) hnd (hmem ev (List.mem_cons_self _ _)),
      sum_filter_partition dur key l cats hnd
        (fun x hx => hmem x (List.mem_cons_of_mem _ hx))]
    simp

theorem categorize_mem_report (s : List Char) : categorize_event s ∈ REPORT_CATEGORIES := by
  unfold categorize_event REPORT_CATEGORIES
  split_ifs with h1 h2
  · exact List.mem_cons_self _ _
  · exact List.mem_cons_of_mem _ h2
  · exact List.mem_cons_self _ _

theorem report_categories_nodup : REPORT_CATEGORIES.Nodup := by decide

theorem total_raw_eq_sum (events : List Event) :
    total_meeting_time_raw events =
      ((non_holiday_events events).map (fun ev => ev.duration_hours)).sum := by
  unfold total_meeting_time_raw durationsFor
  exact sum_filter_partition (fun ev => ev.duration_hours)
    (fun ev => categorize_event ev.categories) (non_holiday_events events)
    REPORT_CATEGORIES report_categories_nodup
    (fun ev _ => categorize_mem_report ev.categories)

/-! Busy-time bounds. -/

theorem intervals_for_day_wf {events : List Event} {d : ℤ} :
    ∀ iv ∈ intervals_for_day events d, iv.1 ≤ iv.2 := by
  intro iv hiv
  unfold intervals_for_day at hiv
  obtain ⟨ev, _, hev⟩ := List.mem_filterMap.mp hiv
  split_ifs at hev with h
  exact le_of_lt (clipDay_some_wf hev)

theorem mem_eventDays {s e d : ℤ} :
    d ∈ eventDays s e ↔ dayOf s ≤ d ∧ d < dayOf e + 1 := by
  unfold eventDays
  exact mem_rangeDays

theorem clipDay_eq_none_of_not_mem {s e d : ℤ} (h : d ∉ eventDays s e) :
    clipDay d s e = none := by
  rw [mem_eventDays] at h
  rcases (by omega : d < dayOf s ∨ dayOf e < d) with h1 | h1
  · exact clipDay_eq_none_of_day_lt e h1
  · exact clipDay_eq_none_of_day_gt s h1

theorem sum_optHours_over_days_le (events : List Event) (ev : Event)
    (hdur : ev.duration_hours = calculate_work_hours_overlap ev.start ev.stop) :
    ((visited_days events).map (fun d =>
        optHours (if d ∈ eventDays ev.start ev.stop ∧ d ∉ holiday_dates events
                  then clipDay d ev.start ev.stop else none))).sum
      ≤ ev.duration_hours := by
  rw [hdur, overlap_eq_sum_clipDay]
  calc ((visited_days events).map (fun d =>
          optHours (if d ∈ eventDays ev.start ev.stop ∧ d ∉ holiday_dates events
                    then clipDay d ev.start ev.stop else none))).sum
      ≤ ((visited_days events).map (fun d =>
          optHours (clipDay d ev.start ev.stop))).sum := by
        refine List.sum_le_sum ?_
        intro d _
        by_cases h : d ∈ eventDays ev.start ev.stop ∧ d ∉ holiday_dates events
        · rw [if_pos h]
        · rw [if_neg h]
          exact optHours_clipDay_nonneg d ev.start ev.stop
    _ ≤ ((eventDays ev.start ev.stop).map (fun d =>
          optHours (clipDay d ev.start ev.stop))).sum := by
        refine sum_map_le_of_nodup _ (List.nodup_dedup _) (rangeDays_nodup _ _) ?_ ?_
        · intro d
          exact optHours_clipDay_nonneg d ev.start ev.stop
        · intro d hd
          rw [clipDay_eq_none_of_not_mem hd]
          rfl

/-- C10: for every event list whose stored `duration_hours` fields are the
fetcher's computed work-hours overlaps, the busy-time total (union of the
merged per-day clipped intervals over non-holiday events, holiday dates
skipped) is at most the raw total planned meeting time. -/
theorem busy_hours_le_raw_sum (events : List Event)
    (hdur : ∀ ev ∈ events,
      ev.duration_hours = calculate_work_hours_overlap ev.start ev.stop) :
    busy_hours_total events ≤ total_meeting_time_raw events := by
  rw [total_raw_eq_sum]
  unfold busy_hours_total
  have hpt : ∀ d ∈ visited_days events,
      ((intervals_for_day events d).map hoursOf).sum
        = ((non_holiday_events events).map (fun ev => optHours (
            if d ∈ eventDays ev.start ev.stop ∧ d ∉ holiday_dates events
            then clipDay d ev.start ev.stop else none))).sum := by
    intro d _
    unfold intervals_for_day
    rw [sum_map_hours_filterMap]
  calc ((visited_days events).map
          (fun d => mergeTotal (intervals_for_day events d))).sum
      ≤ ((visited_days events).map
          (fun d => ((intervals_for_day events d).map hoursOf).sum)).sum :=
        List.sum_le_sum (fun d _ => mergeTotal_le_sum intervals_for_day_wf)
    _ = ((visited_days events).map (fun d =>
          ((non_holiday_events events).map (fun ev => optHours (
            if d ∈ eventDays ev.start ev.stop ∧ d ∉ holiday_dates events
            then clipDay d ev.start ev.stop else none))).sum)).sum := by
        rw [List.map_congr_left hpt]
    _ = ((non_holiday_events events).map (fun ev =>
          ((visited_days events).map (fun d => optHours (
            if d ∈ eventDays ev.start ev.stop ∧ d ∉ holiday_dates events
            then clipDay d ev.start ev.stop else none))).sum)).sum :=
        sum_map_sum_comm (visited_days events) (non_holiday_events events) _
    _ ≤ ((non_holiday_events events).map (fun ev => ev.duration_hours)).sum :=
        List.sum_le_sum (fun ev hev =>
          sum_optHours_over_days_le events ev
            (hdur ev (List.mem_filter.mp hev).1))

/-! String facts for the categorizer. -/

theorem pyStrip_eq_nil_iff {s : List Char} :
    pyStrip s = [] ↔ ∀ c ∈ s, c.isWhitespace := by
  unfold pyStrip
  constructor
  · intro h c hc
    have h1 : ((s.dropWhile Char.isWhitespace).reverse).dropWhile Char.isWhitespace = [] := by
      rwa [List.reverse_eq_nil_iff] at h
    have h2 : ∀ x ∈ (s.dropWhile Char.isWhitespace).reverse, x.isWhitespace = true :=
      List.dropWhile_eq_nil_iff.mp h1
    have h3 : ∀ x ∈ s.dropWhile Char.isWhitespace, x.isWhitespace = true := by
      intro x hx
      exact h2 x (List.mem_reverse.mpr hx)
    have hc2 : c ∈ s.takeWhile Char.isWhitespace ++ s.dropWhile Char.isWhitespace := by
      rw [List.takeWhile_append_dropWhile]
      exact hc
    rcases List.mem_append.mp hc2 with h4 | h4
    · exact List.mem_takeWhile_imp h4
    · exact h3 c h4
  · intro h
    have h1 : s.dropWhile Char.isWhitespace = [] :=
      List.dropWhile_eq_nil_iff.mpr (fun c hc => h c hc)
    rw [h1]
    rfl

theorem firstField_strip_nil_of_strip_nil {s : List Char} (h : pyStrip s = []) :
    pyStrip (firstField s) = [] := by
  rw [pyStrip_eq_nil_iff] at h ⊢
  intro c hc
  exact h c ((List.takeWhile_sublist _).subset hc)

/-! The ten claims. -/

/-- C1 counterexample: two all-day holiday events covering the same
Monday 2024-01-15 put that date once into the holiday date set, yet its
8 work hours enter the reduction total twice (16, not 8) — the reduction
is not deduplicated by date as the claim states. -/
theorem holiday_reduction_double_count :
    holiday_hours_reduction [holidayEvent0115, holidayDup0115] = 16 ∧
    holiday_dates [holidayEvent0115, holidayDup0115] = [14] ∧
    ((holiday_dates [holidayEvent0115, holidayDup0115]).map
      (fun d => DAILY_WORK_HOURS (weekday d))).sum = 8 := by
  refine ⟨by decide, by decide, by decide⟩

/-- C1 amended: the holiday adjustment visits, for each full-day holiday
event, every date in `[start.date, end.date)`; the date set is
membership-deduplicated, but the reduction total adds that weekday's
configured work hours once per visit, so a date covered by several
holiday events contributes its work hours once per covering event. -/
theorem holiday_adjustment_per_visit :
    (∀ events : List Event,
      holiday_hours_reduction events =
        (((events.filter is_all_day_holiday).flatMap holidayDayRange).map
          (fun d => DAILY_WORK_HOURS (weekday d))).sum) ∧
    (∀ (events : List Event) (d : ℤ),
      d ∈ holiday_dates events ↔
        ∃ ev ∈ events, is_all_day_holiday ev = true ∧
          dayOf ev.start ≤ d ∧ d < dayOf ev.stop) := by
  refine ⟨holiday_hours_reduction_eq, ?_⟩
  intro events d
  rw [mem_holiday_dates]
  constructor
  · rintro ⟨ev, hev, hd⟩
    rw [List.mem_filter] at hev
    have hd2 : d ∈ rangeDays (dayOf ev.start) (dayOf ev.stop) := hd
    rw [mem_rangeDays] at hd2
    exact ⟨ev, hev.1, hev.2, hd2.1, hd2.2⟩
  · rintro ⟨ev, hev, hh, h1, h2⟩
    exact ⟨ev, List.mem_filter.mpr ⟨hev, hh⟩, mem_rangeDays.mpr ⟨h1, h2⟩⟩

/-- C2 counterexample: for the empty event list `build_report` takes the
early `return` (prints a no-events notice) and produces no
`ReportResult` at all, rather than an all-zero one. -/
theorem build_report_empty_none : build_report [] = none := rfl

/-- C2 amended: the empty event list is not an error — `build_report`
returns early with no report; every non-empty list yields the assembled
report. -/
theorem build_report_empty_spec :
    build_report [] = none ∧
    ∀ events : List Event, events ≠ [] → build_report events = some (mkReport events) := by
  refine ⟨rfl, ?_⟩
  intro evs h
  unfold build_report
  rw [if_neg h]

/-- C2 witness: a one-event list is non-empty and gets a report. -/
theorem build_report_empty_spec_witness :
    [tueMeetingA] ≠ ([] : List Event) ∧
    build_report [tueMeetingA] = some (mkReport [tueMeetingA]) :=
  ⟨List.cons_ne_nil _ _,
   build_report_empty_spec.2 [tueMeetingA] (List.cons_ne_nil _ _)⟩

/-- C3 counterexample: a two-week all-day holiday (reduction 84 h against
the 42-h weekly total) drives `adjusted_total_work_hours` to −42 — the
value is not floored at 0. -/
theorem adjusted_total_negative_example :
    adjusted_total_work_hours [holidayTwoWeeks] = -42 := by
  have hred : holiday_hours_reduction [holidayTwoWeeks] = 84 := by decide
  unfold adjusted_total_work_hours
  rw [hred, total_work_hours_eq]
  norm_num

/-- C3 amended: `adjustedWorkHoursTotal` is the plain difference
`totalWeeklyWorkHours − holidayReductionHours` with no floor (it can go
negative); the floor at 0 is applied to `freeHours` instead. -/
theorem adjusted_total_formula :
    (∀ events : List Event,
      adjusted_total_work_hours events =
        (TOTAL_WORK_HOURS : ℚ) - (holiday_hours_reduction events : ℚ)) ∧
    (∀ events : List Event, 0 ≤ free_time events) ∧
    (∃ events : List Event, adjusted_total_work_hours events < 0) := by
  refine ⟨fun _ => rfl, fun _ => le_max_left 0 _, ⟨[holidayTwoWeeks], ?_⟩⟩
  have hred : holiday_hours_reduction [holidayTwoWeeks] = 84 := by decide
  unfold adjusted_total_work_hours
  rw [hred, total_work_hours_eq]
  norm_num

/-- The 09:00–10:00 Tuesday meeting overlaps its work window for exactly
one hour, matching its stored `duration_hours`. -/
theorem overlap_tueMeetingA :
    calculate_work_hours_overlap tueMeetingA.start tueMeetingA.stop = 1 := by
  rw [overlap_eq_sum_clipDay]
  rw [show eventDays tueMeetingA.start tueMeetingA.stop = [15] from by decide]
  simp only [List.map_cons, List.map_nil, List.sum_cons, List.sum_nil]
  rw [show clipDay 15 tueMeetingA.start tueMeetingA.stop = some (1328400, 1332000)
    from by decide]
  norm_num [optHours, hoursOf]

/-- The 09:30–10:30 Tuesday meeting overlaps its work window for exactly
one hour, matching its stored `duration_hours`. -/
theorem overlap_tueMeetingB :
    calculate_work_hours_overlap tueMeetingB.start tueMeetingB.stop = 1 := by
  rw [overlap_eq_sum_clipDay]
  rw [show eventDays tueMeetingB.start tueMeetingB.stop = [15] from by decide]
  simp only [List.map_cons, List.map_nil, List.sum_cons, List.sum_nil]
  rw [show clipDay 15 tueMeetingB.start tueMeetingB.stop = some (1330200, 1333800)
    from by decide]
  norm_num [optHours, hoursOf]

/-- C4: meetings 09:00–10:00 and 09:30–10:30 on Tuesday 2024-01-16 clip
to two overlapping intervals that merge to the single interval
09:00–10:30; busy time is 1.5 h, the raw summed duration is 2.0 h, and
the two totals differ by exactly the 0.5-h overlap. -/
theorem merge_overlap_tuesday :
    calculate_work_hours_overlap tueMeetingA.start tueMeetingA.stop =
      tueMeetingA.duration_hours ∧
    calculate_work_hours_overlap tueMeetingB.start tueMeetingB.stop =
      tueMeetingB.duration_hours ∧
    intervals_for_day [tueMeetingA, tueMeetingB] 15 =
      [(15 * 86400 + 9 * 3600, 15 * 86400 + 10 * 3600),
       (15 * 86400 + 9 * 3600 + 1800, 15 * 86400 + 10 * 3600 + 1800)] ∧
    mergeIntervals (intervals_for_day [tueMeetingA, tueMeetingB] 15) =
      [(15 * 86400 + 9 * 3600, 15 * 86400 + 10 * 3600 + 1800)] ∧
    busy_hours_total [tueMeetingA, tueMeetingB] = 3 / 2 ∧
    total_meeting_time_raw [tueMeetingA, tueMeetingB] = 2 ∧
    total_meeting_time_raw [tueMeetingA, tueMeetingB]
      - busy_hours_total [tueMeetingA, tueMeetingB] = 1 / 2 := by
  have hbusy : busy_hours_total [tueMeetingA, tueMeetingB] = 3 / 2 := by
    unfold busy_hours_total
    rw [show visited_days [tueMeetingA, tueMeetingB] = [15] from by decide]
    simp only [List.map_cons, List.map_nil, List.sum_cons, List.sum_nil]
    unfold mergeTotal
    rw [show mergeIntervals (intervals_for_day [tueMeetingA, tueMeetingB] 15) =
      [(1328400, 1333800)] from by decide]
    norm_num [hoursOf]
  have hraw : total_meeting_time_raw [tueMeetingA, tueMeetingB] = 2 := by
    rw [total_raw_eq_sum]
    rw [show non_holiday_events [tueMeetingA, tueMeetingB] = [tueMeetingA, tueMeetingB]
      from rfl]
    norm_num [tueMeetingA, tueMeetingB]
  refine ⟨by rw [overlap_tueMeetingA]; rfl, by rw [overlap_tueMeetingB]; rfl,
    by decide, by decide, hbusy, hraw, by rw [hraw, hbusy]; norm_num⟩

/-- C5: for any event list whose only full-day holiday is the Monday
2024-01-15 00:00 → 2024-01-16 00:00 event, the reduction is exactly that
Monday's 8 configured hours (adjusted total 34), and every non-holiday
event starting on a holiday date is dropped from the accounted event
list while still appearing in the diagnostic listing flagged as
filtered. -/
theorem holiday_exclusion_0115 (events : List Event) (hol : Event)
    (hfil : events.filter is_all_day_holiday = [hol])
    (hs : hol.start = 14 * 86400) (he : hol.stop = 15 * 86400) :
    holiday_hours_reduction events = 8 ∧
    adjusted_total_work_hours events = 34 ∧
    holiday_dates events = [14] ∧
    (∀ ev ∈ events, is_all_day_holiday ev = false →
      dayOf ev.start ∈ holiday_dates events →
      ev ∉ non_holiday_events events ∧
      (ev, false, true) ∈ debugListing events) := by
  have hrange : holidayDayRange hol = [14] := by
    unfold holidayDayRange
    rw [hs, he]
    decide
  have hscan : holidayScan events = ([14], 8) := by
    unfold holidayScan
    rw [hfil]
    rw [show [hol].flatMap holidayDayRange = holidayDayRange hol from by simp]
    rw [hrange]
    decide
  have hred : holiday_hours_reduction events = 8 := by
    unfold holiday_hours_reduction
    rw [hscan]
  have hdat : holiday_dates events = [14] := by
    unfold holiday_dates
    rw [hscan]
  refine ⟨hred, ?_, hdat, ?_⟩
  · unfold adjusted_total_work_hours
    rw [hred, total_work_hours_eq]
    norm_num
  · intro ev hev hhol hdate
    constructor
    · intro hmem
      unfold non_holiday_events at hmem
      rcases (List.mem_filter.mp hmem) with ⟨_, hflag⟩
      exact (of_decide_eq_true hflag) hdate
    · unfold debugListing
      apply List.mem_map.mpr
      refine ⟨ev, (List.mem_insertionSort _).mpr hev, ?_⟩
      have hd : decide (dayOf ev.start ∈ holiday_dates events) = true := decide_eq_true hdate
      rw [hhol, hd]
      rfl

/-- C5 witness: the Monday holiday plus a Monday 10:00–11:00 meeting. -/
theorem holiday_exclusion_0115_witness :
    ([holidayEvent0115, monMeeting0115].filter is_all_day_holiday = [holidayEvent0115]) ∧
    holiday_hours_reduction [holidayEvent0115, monMeeting0115] = 8 ∧
    adjusted_total_work_hours [holidayEvent0115, monMeeting0115] = 34 ∧
    monMeeting0115 ∉ non_holiday_events [holidayEvent0115, monMeeting0115] ∧
    (monMeeting0115, false, true) ∈ debugListing [holidayEvent0115, monMeeting0115] := by
  have h := holiday_exclusion_0115 [holidayEvent0115, monMeeting0115] holidayEvent0115
    rfl rfl rfl
  have h4 := h.2.2.2 monMeeting0115
    (List.mem_cons_of_mem _ (List.mem_cons_self _ _)) rfl (by decide)
  exact ⟨rfl, h.1, h.2.1, h4.1, h4.2⟩

/-- C6 counterexample: with the Focus Time budget `{min 12, max 15, warn 14}`,
accumulated hours exactly 15.0 satisfy `hours > warn` and `hours ≤ max`,
so the code prints `Warning` — not the OK (empty) status the claim
asserts for 15.0. -/
theorem budget_warning_at_max :
    BUDGETS "Focus Time".toList = some ⟨12, 15, 14⟩ ∧
    warn_msg ⟨12, 15, 14⟩ 15 = "Warning" ∧
    warn_msg ⟨12, 15, 14⟩ 15 ≠ "" := by
  have hw : warn_msg ⟨12, 15, 14⟩ 15 = "Warning" := by norm_num [warn_msg]
  refine ⟨rfl, hw, ?_⟩
  rw [hw]
  decide

/-- C6 amended: for budget `{min 12, max 15, warn 14}` the status chain is
Exceeded iff hours > 15, Warning iff 14 < hours ≤ 15, Below min iff
hours < 12, and OK (empty) iff 12 ≤ hours ≤ 14, in that priority; in
particular 14.0 and 12.0 give OK, 15.0 and 14.01 give Warning, 15.01
gives Exceeded, and 11.99 gives Below min. -/
theorem warn_msg_spec :
    BUDGETS "Focus Time".toList = some ⟨12, 15, 14⟩ ∧
    (∀ hrs : ℚ,
      (warn_msg ⟨12, 15, 14⟩ hrs = "Exceeded" ↔ 15 < hrs) ∧
      (warn_msg ⟨12, 15, 14⟩ hrs = "Warning" ↔ 14 < hrs ∧ hrs ≤ 15) ∧
      (warn_msg ⟨12, 15, 14⟩ hrs = "Below min" ↔ hrs < 12) ∧
      (warn_msg ⟨12, 15, 14⟩ hrs = "" ↔ 12 ≤ hrs ∧ hrs ≤ 14)) ∧
    warn_msg ⟨12, 15, 14⟩ 14 = "" ∧
    warn_msg ⟨12, 15, 14⟩ 12 = "" ∧
    warn_msg ⟨12, 15, 14⟩ 15 = "Warning" ∧
    warn_msg ⟨12, 15, 14⟩ (1401 / 100) = "Warning" ∧
    warn_msg ⟨12, 15, 14⟩ (1501 / 100) = "Exceeded" ∧
    warn_msg ⟨12, 15, 14⟩ (1199 / 100) = "Below min" := by
  refine ⟨rfl, ?_, by norm_num [warn_msg], by norm_num [warn_msg], by norm_num [warn_msg],
    by norm_num [warn_msg], by norm_num [warn_msg], by norm_num [warn_msg]⟩
  intro hrs
  unfold warn_msg
  have hM : ({ min := 12, max := 15, warn := 14 } : Budget).max = 15 := rfl
  have hW : ({ min := 12, max := 15, warn := 14 } : Budget).warn = 14 := rfl
  have hm : ({ min := 12, max := 15, warn := 14 } : Budget).min = 12 := rfl
  rw [hM, hW, hm]
  split_ifs with h1 h2 h3
  · exact ⟨⟨fun _ => h1, fun _ => rfl⟩,
      ⟨fun h => absurd h (by decide), fun h => absurd h1 (not_lt.mpr h.2)⟩,
      ⟨fun h => absurd h (by decide),
       fun h => absurd h1 (not_lt.mpr (le_of_lt (lt_trans h (by norm_num))))⟩,
      ⟨fun h => absurd h (by decide),
       fun h => absurd h1 (not_lt.mpr (le_trans h.2 (by norm_num)))⟩⟩
  · exact ⟨⟨fun h => absurd h (by decide), fun h => absurd h h1⟩,
      ⟨fun _ => ⟨h2, not_lt.mp h1⟩, fun _ => rfl⟩,
      ⟨fun h => absurd h (by decide),
       fun h => absurd h2 (not_lt.mpr (le_of_lt (lt_trans h (by norm_num))))⟩,
      ⟨fun h => absurd h (by decide), fun h => absurd h2 (not_lt.mpr h.2)⟩⟩
  · exact ⟨⟨fun h => absurd h (by decide), fun h => absurd h h1⟩,
      ⟨fun h => absurd h (by decide), fun h => absurd h.1 h2⟩,
      ⟨fun _ => h3, fun _ => rfl⟩,
      ⟨fun h => absurd h (by decide), fun h => absurd h3 (not_lt.mpr h.1)⟩⟩
  · exact ⟨⟨fun h => absurd h (by decide), fun h => absurd h h1⟩,
      ⟨fun h => absurd h (by decide), fun h => absurd h.1 h2⟩,
      ⟨fun h => absurd h (by decide), fun h => absurd h h3⟩,
      ⟨fun _ => ⟨not_lt.mp h3, not_lt.mp h2⟩, fun _ => rfl⟩⟩

/-- C7: an event lying entirely inside one day's non-empty work window
clips to exactly its own span; an event touching only days whose
configured work hours are zero (weekends) contributes zero hours. -/
theorem clip_inside_and_weekend :
    (∀ d s e : ℤ, 0 < DAILY_WORK_HOURS (weekday d) →
      work_start d ≤ s → e ≤ work_end d → s < e →
      calculate_work_hours_overlap s e = ((e - s : ℤ) : ℚ) / 3600) ∧
    (∀ s e : ℤ, (∀ d ∈ eventDays s e, DAILY_WORK_HOURS (weekday d) = 0) →
      calculate_work_hours_overlap s e = 0) := by
  constructor
  · intro d s e hdw hws hwe hse
    obtain ⟨hb1, hb2⟩ := dst_bounds (weekday d)
    have hds : dayOf s = d := by
      unfold work_start at hws
      unfold work_end at hwe
      unfold dayOf
      omega
    have hde : dayOf e = d := by
      unfold work_start at hws
      unfold work_end at hwe
      unfold dayOf
      omega
    have hdays : eventDays s e = [d] := by
      unfold eventDays
      rw [hds, hde]
      unfold rangeDays
      have h1 : (d + 1 - d : ℤ) = 1 := by ring
      rw [h1]
      rw [show List.range (1 : ℤ).toNat = [0] from rfl]
      simp
    rw [overlap_eq_sum_clipDay, hdays]
    have hclip : clipDay d s e = some (s, e) := by
      unfold clipDay
      rw [if_pos hdw, max_eq_left hws, min_eq_left hwe, if_pos hse]
    simp only [List.map_cons, List.map_nil, List.sum_cons, List.sum_nil, hclip]
    show optHours (some (s, e)) + 0 = ((e - s : ℤ) : ℚ) / 3600
    simp [optHours, hoursOf]
  · intro s e h
    unfold calculate_work_hours_overlap
    rw [foldl_add_eq_sum (overlapTerm s e), zero_add]
    rw [List.sum_eq_zero (by
      intro x hx
      obtain ⟨d, hd, rfl⟩ := List.mem_map.mp hx
      unfold overlapTerm
      rw [if_pos (h d hd)])]
    exact max_self 0

/-- C7 witness: a Tuesday 10:00–11:00 meeting inside the 9:00–17:00
window keeps its full hour; a Saturday event yields zero. -/
theorem clip_inside_and_weekend_witness :
    (0 < DAILY_WORK_HOURS (weekday 15) ∧ work_start 15 ≤ 1332000 ∧
     (1335600 : ℤ) ≤ work_end 15 ∧ (1332000 : ℤ) < 1335600 ∧
     calculate_work_hours_overlap 1332000 1335600 =
       ((1335600 - 1332000 : ℤ) : ℚ) / 3600) ∧
    ((∀ d ∈ eventDays (5 * 86400 + 3600) (5 * 86400 + 7200),
        DAILY_WORK_HOURS (weekday d) = 0) ∧
     calculate_work_hours_overlap (5 * 86400 + 3600) (5 * 86400 + 7200) = 0) := by
  refine ⟨⟨by decide, by decide, by decide, by decide, ?_⟩, ⟨by decide, ?_⟩⟩
  · exact clip_inside_and_weekend.1 15 1332000 1335600 (by decide) (by decide)
      (by decide) (by decide)
  · exact clip_inside_and_weekend.2 (5 * 86400 + 3600) (5 * 86400 + 7200) (by decide)

/-- C8 counterexample: the disjoint but adjacent intervals 09:00–10:00
and 10:00–11:00 (the first ends exactly where the second starts) are
coalesced by the merge into a single interval, so the merger does not
return the same set back — though the total is still the naive sum. -/
theorem merge_adjacent_coalesced :
    ((32400 : ℤ), (36000 : ℤ)).2 ≤ ((36000 : ℤ), (39600 : ℤ)).1 ∧
    mergeIntervals [((32400 : ℤ), (36000 : ℤ)), (36000, 39600)] = [(32400, 39600)] ∧
    mergeIntervals [((32400 : ℤ), (36000 : ℤ)), (36000, 39600)] ≠
      [(32400, 36000), (36000, 39600)] ∧
    mergeTotal [((32400 : ℤ), (36000 : ℤ)), (36000, 39600)] =
      hoursOf (32400, 36000) + hoursOf (36000, 39600) := by
  refine ⟨by decide, by decide, by decide, ?_⟩
  unfold mergeTotal
  rw [show mergeIntervals [((32400 : ℤ), (36000 : ℤ)), (36000, 39600)] =
    [(32400, 39600)] from by decide]
  norm_num [hoursOf]

/-- C8 amended: a list of well-formed intervals that is sorted and
strictly separated (each interval ends strictly before the next begins)
is returned unchanged by the merge, and its merged total equals the
naive sum of the individual durations; adjacent disjoint intervals are
instead coalesced (see the counterexample) with the total preserved. -/
theorem merge_separated_id {l : List (ℤ × ℤ)}
    (hsep : List.Pairwise (fun x y => x.2 < y.1) l)
    (hwf : ∀ iv ∈ l, iv.1 < iv.2) :
    mergeIntervals l = l ∧ mergeTotal l = (l.map hoursOf).sum := by
  have hm := mergeIntervals_of_separated hsep hwf
  refine ⟨hm, ?_⟩
  unfold mergeTotal
  rw [hm]

/-- C8 witness: two separated morning intervals survive the merge
unchanged with total equal to the naive sum. -/
theorem merge_separated_id_witness :
    List.Pairwise (fun x y : ℤ × ℤ => x.2 < y.1)
      [((32400 : ℤ), (36000 : ℤ)), (37800, 39600)] ∧
    (∀ iv ∈ [((32400 : ℤ), (36000 : ℤ)), (37800, 39600)], iv.1 < iv.2) ∧
    mergeIntervals [((32400 : ℤ), (36000 : ℤ)), (37800, 39600)] =
      [(32400, 36000), (37800, 39600)] ∧
    mergeTotal [((32400 : ℤ), (36000 : ℤ)), (37800, 39600)] =
      ([((32400 : ℤ), (36000 : ℤ)), (37800, 39600)].map hoursOf).sum := by
  have h := merge_separated_id
    (l := [((32400 : ℤ), (36000 : ℤ)), (37800, 39600)]) (by decide) (by decide)
  exact ⟨by decide, by decide, h.1, h.2⟩

/-- C9: `categorize_event` is a total function equal to: take the first
comma-separated token stripped of whitespace; if it is empty or not in
the known category set return the `"Work Meeting"` fallback, else return
the token; the four example labels map accordingly. -/
theorem categorize_event_spec :
    (∀ s : List Char,
      categorize_event s =
        if pyStrip (firstField s) = [] ∨ pyStrip (firstField s) ∉ KNOWN_CATEGORIES
        then "Work Meeting".toList else pyStrip (firstField s)) ∧
    categorize_event "".toList = "Work Meeting".toList ∧
    categorize_event "SomeUnknownTag".toList = "Work Meeting".toList ∧
    categorize_event "SomeUnknownTag, Other".toList = "Work Meeting".toList ∧
    categorize_event "Focus Time, Extra".toList = "Focus Time".toList := by
  refine ⟨?_, by decide, by decide, by decide, by decide⟩
  intro s
  unfold categorize_event
  by_cases h0 : pyStrip s = []
  · rw [if_pos h0, if_pos (Or.inl (firstField_strip_nil_of_strip_nil h0))]
  · rw [if_neg h0]
    by_cases h1 : pyStrip (firstField s) ∈ KNOWN_CATEGORIES
    · rw [if_pos h1, if_neg (fun hor => hor.elim
        (fun he => by rw [he] at h1; exact absurd h1 (by decide))
        (fun hn => hn h1))]
    · rw [if_neg h1, if_pos (Or.inr h1)]

/-- C10 witness: for the single Tuesday meeting, whose stored duration
equals its computed work-hours overlap, busy time is at most the raw
planned meeting time. -/
theorem busy_le_raw_witness :
    (∀ ev ∈ [tueMeetingA],
      ev.duration_hours = calculate_work_hours_overlap ev.start ev.stop) ∧
    busy_hours_total [tueMeetingA] ≤ total_meeting_time_raw [tueMeetingA] := by
  have hh : ∀ ev ∈ [tueMeetingA],
      ev.duration_hours = calculate_work_hours_overlap ev.start ev.stop := by
    intro ev hev
    rw [List.mem_singleton] at hev
    subst hev
    rw [overlap_tueMeetingA]
    rfl
  exact ⟨hh, busy_hours_le_raw_sum [tueMeetingA] hh⟩
